import Mathlib

/-!
Verification of the raster class reconciliation and grid alignment engine.

The definitions below are shallow embeddings of the Python sources:
- `align_bounds_to_grid` embeds
  `AlignedFuelModelReconciliation.align_bounds_to_grid`
  (src/class_reconciliation_enhanced.py, lines 134-167);
- real-valued coordinates are modelled by rationals, so floor/ceil snapping
  and lattice arithmetic are exact.
-/

namespace ClassReconciliation

/-- Python `int(x)` truncates toward zero: floor for nonnegative arguments,
ceil for negative ones. -/
def pyInt (q : ℚ) : ℤ := if q < 0 then ⌈q⌉ else ⌊q⌋

/-- Result of `align_bounds_to_grid`: the aligned bounds, the affine transform
origin (`Affine(input_res, 0, aligned_minx, 0, -input_res, aligned_maxy)`,
so the transform's `c`/`f` entries are `aligned_minx`/`aligned_maxy`),
and integer pixel dimensions. -/
structure AlignResult where
  alignedMinX : ℚ
  alignedMinY : ℚ
  alignedMaxX : ℚ
  alignedMaxY : ℚ
  originX : ℚ
  originY : ℚ
  width : ℤ
  height : ℤ
  deriving Repr, DecidableEq

/-- Embedding of `align_bounds_to_grid(self, bounds, input_res)` from
src/class_reconciliation_enhanced.py lines 134-167.
`gridOriginX`/`gridOriginY` are `self.grid_origin_x`/`self.grid_origin_y`,
`refRes` is `self.reference_res[0]`.

    aligned_minx = grid_origin_x + floor((minx - grid_origin_x) / ref_res) * ref_res
    aligned_maxy = grid_origin_y + ceil((maxy - grid_origin_y) / ref_res) * ref_res
    aligned_maxx = grid_origin_x + ceil((maxx - grid_origin_x) / ref_res) * ref_res
    aligned_miny = grid_origin_y + floor((miny - grid_origin_y) / ref_res) * ref_res
    width  = int((aligned_maxx - aligned_minx) / input_res)
    height = int((aligned_maxy - aligned_miny) / input_res)
-/
def align_bounds_to_grid (gridOriginX gridOriginY refRes : ℚ)
    (minx miny maxx maxy : ℚ) (inputRes : ℚ) : AlignResult :=
  let alignedMinX := gridOriginX + (⌊(minx - gridOriginX) / refRes⌋ : ℚ) * refRes
  let alignedMaxY := gridOriginY + (⌈(maxy - gridOriginY) / refRes⌉ : ℚ) * refRes
  let alignedMaxX := gridOriginX + (⌈(maxx - gridOriginX) / refRes⌉ : ℚ) * refRes
  let alignedMinY := gridOriginY + (⌊(miny - gridOriginY) / refRes⌋ : ℚ) * refRes
  { alignedMinX := alignedMinX
    alignedMinY := alignedMinY
    alignedMaxX := alignedMaxX
    alignedMaxY := alignedMaxY
    originX := alignedMinX
    originY := alignedMaxY
    width := pyInt ((alignedMaxX - alignedMinX) / inputRes)
    height := pyInt ((alignedMaxY - alignedMinY) / inputRes) }

end ClassReconciliation

namespace ClassReconciliation

/-- C1: the aligned origin (aligned min X, aligned max Y) differs from the
reference grid origin by an exact integer multiple of the reference cell size
in both axes. In the rational embedding the invariant is exact, so the
floating-point tolerance of the spec is subsumed. -/
theorem align_origin_on_reference_lattice
    (gridOriginX gridOriginY refRes minx miny maxx maxy inputRes : ℚ)
    (h : 0 < refRes) :
    ∃ k m : ℤ,
      (align_bounds_to_grid gridOriginX gridOriginY refRes
          minx miny maxx maxy inputRes).originX - gridOriginX = (k : ℚ) * refRes ∧
      (align_bounds_to_grid gridOriginX gridOriginY refRes
          minx miny maxx maxy inputRes).originY - gridOriginY = (m : ℚ) * refRes := by
  refine ⟨⌊(minx - gridOriginX) / refRes⌋, ⌈(maxy - gridOriginY) / refRes⌉, ?_, ?_⟩ <;>
    simp [align_bounds_to_grid]

/-- Witness for C1 at the deployed LANDFIRE lattice (origin (-2362425, 3310005),
30 m cells) and a concrete bounding box. -/
theorem align_origin_on_reference_lattice_witness :
    (0 : ℚ) < 30 ∧
    ∃ k m : ℤ,
      (align_bounds_to_grid (-2362425) 3310005 30 100 200 400 500 10).originX -
          (-2362425) = (k : ℚ) * 30 ∧
      (align_bounds_to_grid (-2362425) 3310005 30 100 200 400 500 10).originY -
          3310005 = (m : ℚ) * 30 :=
  ⟨by norm_num,
    align_origin_on_reference_lattice (-2362425) 3310005 30 100 200 400 500 10
      (by norm_num)⟩

/-- C4: the aligned bounding box contains the input box: the minimum edges are
snapped down (floor) and the maximum edges snapped up (ceil), so no data at
the edges is truncated. -/
theorem align_bounds_contain_input
    (gridOriginX gridOriginY refRes minx miny maxx maxy inputRes : ℚ)
    (h : 0 < refRes) :
    (align_bounds_to_grid gridOriginX gridOriginY refRes
        minx miny maxx maxy inputRes).alignedMinX ≤ minx ∧
    (align_bounds_to_grid gridOriginX gridOriginY refRes
        minx miny maxx maxy inputRes).alignedMinY ≤ miny ∧
    maxx ≤ (align_bounds_to_grid gridOriginX gridOriginY refRes
        minx miny maxx maxy inputRes).alignedMaxX ∧
    maxy ≤ (align_bounds_to_grid gridOriginX gridOriginY refRes
        minx miny maxx maxy inputRes).alignedMaxY := by
  have hne : refRes ≠ 0 := ne_of_gt h
  refine ⟨?_, ?_, ?_, ?_⟩ <;> simp only [align_bounds_to_grid]
  · have hf : (⌊(minx - gridOriginX) / refRes⌋ : ℚ) ≤ (minx - gridOriginX) / refRes :=
      Int.floor_le _
    have := mul_le_mul_of_nonneg_right hf (le_of_lt h)
    rw [div_mul_cancel₀ _ hne] at this
    linarith
  · have hf : (⌊(miny - gridOriginY) / refRes⌋ : ℚ) ≤ (miny - gridOriginY) / refRes :=
      Int.floor_le _
    have := mul_le_mul_of_nonneg_right hf (le_of_lt h)
    rw [div_mul_cancel₀ _ hne] at this
    linarith
  · have hc : (maxx - gridOriginX) / refRes ≤ (⌈(maxx - gridOriginX) / refRes⌉ : ℚ) :=
      Int.le_ceil _
    have := mul_le_mul_of_nonneg_right hc (le_of_lt h)
    rw [div_mul_cancel₀ _ hne] at this
    linarith
  · have hc : (maxy - gridOriginY) / refRes ≤ (⌈(maxy - gridOriginY) / refRes⌉ : ℚ) :=
      Int.le_ceil _
    have := mul_le_mul_of_nonneg_right hc (le_of_lt h)
    rw [div_mul_cancel₀ _ hne] at this
    linarith

/-- Witness for C4 at a concrete box on the deployed lattice. -/
theorem align_bounds_contain_input_witness :
    (0 : ℚ) < 30 ∧
    ((align_bounds_to_grid (-2362425) 3310005 30 100 200 400 500 10).alignedMinX ≤ 100 ∧
     (align_bounds_to_grid (-2362425) 3310005 30 100 200 400 500 10).alignedMinY ≤ 200 ∧
     400 ≤ (align_bounds_to_grid (-2362425) 3310005 30 100 200 400 500 10).alignedMaxX ∧
     500 ≤ (align_bounds_to_grid (-2362425) 3310005 30 100 200 400 500 10).alignedMaxY) :=
  ⟨by norm_num,
    align_bounds_contain_input (-2362425) 3310005 30 100 200 400 500 10 (by norm_num)⟩

lemma pyInt_eq_floor_of_nonneg {q : ℚ} (h : 0 ≤ q) : pyInt q = ⌊q⌋ := by
  simp [pyInt, not_lt.mpr h]

/-- C5 counterexample: `width = int(extent / input_res)` truncates, so the
cells do NOT always cover the aligned extent. With reference origin 0,
reference cell size 30, input box (0,0,30,30) and working resolution 7, the
aligned extent is 30 but `width = int(30/7) = 4`, and `4 * 7 = 28 < 30`. -/
theorem align_width_covers_extent_counterexample :
    (align_bounds_to_grid 0 0 30 0 0 30 30 7).width = 4 ∧
    ¬ ((align_bounds_to_grid 0 0 30 0 0 30 30 7).alignedMaxX -
        (align_bounds_to_grid 0 0 30 0 0 30 30 7).alignedMinX ≤
       ((align_bounds_to_grid 0 0 30 0 0 30 30 7).width : ℚ) * 7) := by
  have h0 : (⌊((0 : ℚ) - 0) / 30⌋ : ℤ) = 0 := by
    have he : ((0 : ℚ) - 0) / 30 = ((0 : ℤ) : ℚ) := by norm_num
    rw [he, Int.floor_intCast]
  have h1 : (⌈((30 : ℚ) - 0) / 30⌉ : ℤ) = 1 := by
    have he : ((30 : ℚ) - 0) / 30 = ((1 : ℤ) : ℚ) := by norm_num
    rw [he, Int.ceil_intCast]
  have h4 : (⌊(30 : ℚ) / 7⌋ : ℤ) = 4 := by
    rw [Int.floor_eq_iff]
    constructor <;> norm_num
  simp only [align_bounds_to_grid, pyInt, h0, h1]
  norm_num [h4]

/-- C5 amended: for valid bounds and positive resolutions, width and height
are the truncated quotients `⌊extent / working_resolution⌋`: the cells cover
the aligned extent except for a remainder strictly smaller than one working
cell, i.e. `width * res ≤ extentX < (width + 1) * res` (and symmetrically for
height). Full coverage `width * res ≥ extentX` holds exactly when the aligned
extent is an integer multiple of the working resolution (as in the deployed
30 m lattice with 10 m working cells), not in general. -/
theorem align_width_height_truncated_cover
    (gridOriginX gridOriginY refRes minx miny maxx maxy inputRes : ℚ)
    (hr : 0 < refRes) (hw : 0 < inputRes) (hx : minx ≤ maxx) (hy : miny ≤ maxy) :
    (((align_bounds_to_grid gridOriginX gridOriginY refRes
        minx miny maxx maxy inputRes).width : ℚ) * inputRes ≤
      (align_bounds_to_grid gridOriginX gridOriginY refRes
        minx miny maxx maxy inputRes).alignedMaxX -
      (align_bounds_to_grid gridOriginX gridOriginY refRes
        minx miny maxx maxy inputRes).alignedMinX ∧
     (align_bounds_to_grid gridOriginX gridOriginY refRes
        minx miny maxx maxy inputRes).alignedMaxX -
      (align_bounds_to_grid gridOriginX gridOriginY refRes
        minx miny maxx maxy inputRes).alignedMinX <
      (((align_bounds_to_grid gridOriginX gridOriginY refRes
        minx miny maxx maxy inputRes).width : ℚ) + 1) * inputRes) ∧
    (((align_bounds_to_grid gridOriginX gridOriginY refRes
        minx miny maxx maxy inputRes).height : ℚ) * inputRes ≤
      (align_bounds_to_grid gridOriginX gridOriginY refRes
        minx miny maxx maxy inputRes).alignedMaxY -
      (align_bounds_to_grid gridOriginX gridOriginY refRes
        minx miny maxx maxy inputRes).alignedMinY ∧
     (align_bounds_to_grid gridOriginX gridOriginY refRes
        minx miny maxx maxy inputRes).alignedMaxY -
      (align_bounds_to_grid gridOriginX gridOriginY refRes
        minx miny maxx maxy inputRes).alignedMinY <
      (((align_bounds_to_grid gridOriginX gridOriginY refRes
        minx miny maxx maxy inputRes).height : ℚ) + 1) * inputRes) := by
  have hwne : inputRes ≠ 0 := ne_of_gt hw
  set A := align_bounds_to_grid gridOriginX gridOriginY refRes
      minx miny maxx maxy inputRes with hA
  -- The aligned extents are nonnegative.
  have hex : 0 ≤ A.alignedMaxX - A.alignedMinX := by
    rw [hA]
    simp only [align_bounds_to_grid]
    have h1 : (⌊(minx - gridOriginX) / refRes⌋ : ℚ) ≤
        (⌈(maxx - gridOriginX) / refRes⌉ : ℚ) := by
      have ha : (⌊(minx - gridOriginX) / refRes⌋ : ℚ) ≤ (minx - gridOriginX) / refRes :=
        Int.floor_le _
      have hb : (minx - gridOriginX) / refRes ≤ (maxx - gridOriginX) / refRes :=
        div_le_div_of_nonneg_right (by linarith) hr.le
      have hc : (maxx - gridOriginX) / refRes ≤ (⌈(maxx - gridOriginX) / refRes⌉ : ℚ) :=
        Int.le_ceil _
      linarith
    nlinarith [mul_le_mul_of_nonneg_right h1 (le_of_lt hr)]
  have hey : 0 ≤ A.alignedMaxY - A.alignedMinY := by
    rw [hA]
    simp only [align_bounds_to_grid]
    have h1 : (⌊(miny - gridOriginY) / refRes⌋ : ℚ) ≤
        (⌈(maxy - gridOriginY) / refRes⌉ : ℚ) := by
      have ha : (⌊(miny - gridOriginY) / refRes⌋ : ℚ) ≤ (miny - gridOriginY) / refRes :=
        Int.floor_le _
      have hb : (miny - gridOriginY) / refRes ≤ (maxy - gridOriginY) / refRes :=
        div_le_div_of_nonneg_right (by linarith) hr.le
      have hc : (maxy - gridOriginY) / refRes ≤ (⌈(maxy - gridOriginY) / refRes⌉ : ℚ) :=
        Int.le_ceil _
      linarith
    nlinarith [mul_le_mul_of_nonneg_right h1 (le_of_lt hr)]
  have hwproj : A.width = pyInt ((A.alignedMaxX - A.alignedMinX) / inputRes) := by
    rw [hA]; rfl
  have hhproj : A.height = pyInt ((A.alignedMaxY - A.alignedMinY) / inputRes) := by
    rw [hA]; rfl
  have hwidth : A.width = ⌊(A.alignedMaxX - A.alignedMinX) / inputRes⌋ := by
    rw [hwproj]
    exact pyInt_eq_floor_of_nonneg (div_nonneg hex hw.le)
  have hheight : A.height = ⌊(A.alignedMaxY - A.alignedMinY) / inputRes⌋ := by
    rw [hhproj]
    exact pyInt_eq_floor_of_nonneg (div_nonneg hey hw.le)
  rw [hwidth, hheight]
  refine ⟨⟨?_, ?_⟩, ?_, ?_⟩
  · have h := Int.floor_le ((A.alignedMaxX - A.alignedMinX) / inputRes)
    have h2 := mul_le_mul_of_nonneg_right h (le_of_lt hw)
    rwa [div_mul_cancel₀ _ hwne] at h2
  · have h := Int.lt_floor_add_one ((A.alignedMaxX - A.alignedMinX) / inputRes)
    have h2 := mul_lt_mul_of_pos_right h hw
    rw [div_mul_cancel₀ _ hwne] at h2
    linarith
  · have h := Int.floor_le ((A.alignedMaxY - A.alignedMinY) / inputRes)
    have h2 := mul_le_mul_of_nonneg_right h (le_of_lt hw)
    rwa [div_mul_cancel₀ _ hwne] at h2
  · have h := Int.lt_floor_add_one ((A.alignedMaxY - A.alignedMinY) / inputRes)
    have h2 := mul_lt_mul_of_pos_right h hw
    rw [div_mul_cancel₀ _ hwne] at h2
    linarith

/-- Witness for the amended C5 at the deployed configuration (30 m reference
lattice, 10 m working resolution). -/
theorem align_width_height_truncated_cover_witness :
    ((0 : ℚ) < 30 ∧ (0 : ℚ) < 10 ∧ (100 : ℚ) ≤ 400 ∧ (200 : ℚ) ≤ 500) ∧
    ((((align_bounds_to_grid (-2362425) 3310005 30 100 200 400 500 10).width : ℚ) * 10 ≤
        (align_bounds_to_grid (-2362425) 3310005 30 100 200 400 500 10).alignedMaxX -
        (align_bounds_to_grid (-2362425) 3310005 30 100 200 400 500 10).alignedMinX ∧
      (align_bounds_to_grid (-2362425) 3310005 30 100 200 400 500 10).alignedMaxX -
        (align_bounds_to_grid (-2362425) 3310005 30 100 200 400 500 10).alignedMinX <
        (((align_bounds_to_grid (-2362425) 3310005 30 100 200 400 500 10).width : ℚ) + 1) * 10) ∧
     (((align_bounds_to_grid (-2362425) 3310005 30 100 200 400 500 10).height : ℚ) * 10 ≤
        (align_bounds_to_grid (-2362425) 3310005 30 100 200 400 500 10).alignedMaxY -
        (align_bounds_to_grid (-2362425) 3310005 30 100 200 400 500 10).alignedMinY ∧
      (align_bounds_to_grid (-2362425) 3310005 30 100 200 400 500 10).alignedMaxY -
        (align_bounds_to_grid (-2362425) 3310005 30 100 200 400 500 10).alignedMinY <
        (((align_bounds_to_grid (-2362425) 3310005 30 100 200 400 500 10).height : ℚ) + 1) * 10)) :=
  ⟨⟨by norm_num, by norm_num, by norm_num, by norm_num⟩,
    align_width_height_truncated_cover (-2362425) 3310005 30 100 200 400 500 10
      (by norm_num) (by norm_num) (by norm_num) (by norm_num)⟩

/-!
Gap filling (`FuelModelReconciliation.fill_nodata_majority` and its inner
`majority_filter`, src/class_reconciliation.py lines 222-273). Pixels are
integers, the no-data sentinel is the hard-coded `-9999`. A raster is a
function `ℤ → ℤ → ℤ` together with its height and width; reads outside the
raster return the constant `-9999` (scipy `mode='constant', cval=-9999`).
-/

/-- One step of `np.argmax` over the counts array: scanning left to right, the
current best is replaced only by a strictly larger count, so the FIRST maximum
wins. -/
def argmaxStep (f : ℤ → ℕ) (best v : ℤ) : ℤ := if f best < f v then v else best

/-- `unique[np.argmax(counts)]`: the first element of `l` whose `f`-value is
maximal (`-9999` on the empty list, unreachable in context). -/
def firstMaxVal (f : ℤ → ℕ) : List ℤ → ℤ
  | [] => -9999
  | x :: xs => xs.foldl (argmaxStep f) x

/-- Embedding of the inner `majority_filter(arr)`
(src/class_reconciliation.py lines 252-258):

    valid_values = arr[arr != -9999]
    if len(valid_values) > 0:
        unique, counts = np.unique(valid_values, return_counts=True)
        return unique[np.argmax(counts)]
    return -9999

`np.unique` returns the distinct values sorted ascending; `np.argmax` returns
the first index attaining the maximal count. -/
def majority_filter (arr : List ℤ) : ℤ :=
  let valid := arr.filter (fun v => v ≠ -9999)
  if 0 < valid.length then
    firstMaxVal (fun u => valid.count u) (valid.toFinset.sort (· ≤ ·))
  else -9999

/-- Raster read with scipy boundary handling `mode='constant', cval=-9999`. -/
def readPixel (height width : ℤ) (data : ℤ → ℤ → ℤ) (i j : ℤ) : ℤ :=
  if 0 ≤ i ∧ i < height ∧ 0 ≤ j ∧ j < width then data i j else -9999

/-- The square `windowSize × windowSize` neighborhood centered at `(i, j)`
flattened to a list, as `scipy.ndimage.generic_filter(..., size=window_size)`
presents it to `majority_filter` (for odd `windowSize` the offsets run from
`-(windowSize / 2)` to `windowSize / 2`). -/
def windowValues (height width : ℤ) (data : ℤ → ℤ → ℤ) (windowSize : ℕ)
    (i j : ℤ) : List ℤ :=
  (List.range windowSize).flatMap fun di =>
    (List.range windowSize).map fun dj =>
      readPixel height width data (i + di - (windowSize : ℤ) / 2)
        (j + dj - (windowSize : ℤ) / 2)

/-- `ndimage.generic_filter(data, majority_filter, size=window_size,
mode='constant', cval=-9999)`: the majority filter applied at every pixel. -/
def filled_all (height width : ℤ) (data : ℤ → ℤ → ℤ) (windowSize : ℕ)
    (i j : ℤ) : ℤ :=
  majority_filter (windowValues height width data windowSize i j)

/-- Embedding of `fill_nodata_majority` (src/class_reconciliation.py lines
222-273): if the raster holds no `-9999` pixel, the input is copied unchanged
(fast path); otherwise the generic filter runs and afterwards every pixel that
was not `-9999` is restored from the input
(`filled_data[~nodata_mask] = data[~nodata_mask]`). -/
def fill_nodata_majority (height width : ℤ) (data : ℤ → ℤ → ℤ)
    (windowSize : ℕ) : ℤ → ℤ → ℤ :=
  if ∃ i ∈ Finset.Ico 0 height, ∃ j ∈ Finset.Ico 0 width, data i j = -9999 then
    fun i j =>
      if data i j ≠ -9999 then data i j
      else filled_all height width data windowSize i j
  else data

/-- C9: gap filling never changes a pixel whose input value differs from the
no-data sentinel. -/
theorem fill_preserves_valid_pixels (height width : ℤ) (data : ℤ → ℤ → ℤ)
    (windowSize : ℕ) (i j : ℤ) (h : data i j ≠ -9999) :
    fill_nodata_majority height width data windowSize i j = data i j := by
  unfold fill_nodata_majority
  split
  · simp [h]
  · rfl

/-- A concrete 1×2 raster with one sentinel pixel, for the C9 witness. -/
def sampleRaster : ℤ → ℤ → ℤ := fun i j => if i = 0 ∧ j = 0 then -9999 else 5

/-- Witness for C9: the valid pixel at (0, 1) of `sampleRaster` survives a
3×3 majority fill unchanged. -/
theorem fill_preserves_valid_pixels_witness :
    sampleRaster 0 1 ≠ -9999 ∧
    fill_nodata_majority 1 2 sampleRaster 3 0 1 = sampleRaster 0 1 :=
  ⟨by norm_num [sampleRaster],
    fill_preserves_valid_pixels 1 2 sampleRaster 3 0 1 (by norm_num [sampleRaster])⟩

lemma argmax_foldl_spec (f : ℤ → ℕ) (xs : List ℤ) (x : ℤ) :
    (xs.foldl (argmaxStep f) x = x ∨
      (xs.foldl (argmaxStep f) x ∈ xs ∧ f x < f (xs.foldl (argmaxStep f) x))) ∧
    f x ≤ f (xs.foldl (argmaxStep f) x) ∧
    ∀ v ∈ xs, f v ≤ f (xs.foldl (argmaxStep f) x) := by
  induction xs generalizing x with
  | nil => simp
  | cons y ys ih =>
    simp only [List.foldl_cons]
    rcases le_or_lt (f y) (f x) with hle | hlt
    · have hstep : argmaxStep f x y = x := by simp [argmaxStep, not_lt.mpr hle]
      rw [hstep]
      obtain ⟨h1, h2, h3⟩ := ih x
      refine ⟨?_, h2, ?_⟩
      · rcases h1 with h | ⟨hm, hf⟩
        · exact Or.inl h
        · exact Or.inr ⟨List.mem_cons_of_mem _ hm, hf⟩
      · intro v hv
        rcases List.mem_cons.mp hv with rfl | hv'
        · exact le_trans hle h2
        · exact h3 v hv'
    · have hstep : argmaxStep f x y = y := by simp [argmaxStep, hlt]
      rw [hstep]
      obtain ⟨h1, h2, h3⟩ := ih y
      refine ⟨?_, le_trans hlt.le h2, ?_⟩
      · rcases h1 with h | ⟨hm, hf⟩
        · exact Or.inr ⟨by simp [h], by rw [h]; exact lt_of_lt_of_le hlt (le_refl _)⟩
        · exact Or.inr ⟨List.mem_cons_of_mem _ hm, lt_trans hlt hf⟩
      · intro v hv
        rcases List.mem_cons.mp hv with rfl | hv'
        · exact h2
        · exact h3 v hv'

lemma argmax_foldl_first (f : ℤ → ℕ) (xs : List ℤ) (x : ℤ)
    (hs : (x :: xs).Sorted (· ≤ ·)) :
    ∀ v ∈ x :: xs, f v = f (xs.foldl (argmaxStep f) x) →
      xs.foldl (argmaxStep f) x ≤ v := by
  induction xs generalizing x with
  | nil =>
    intro v hv _
    simp only [List.foldl_nil]
    rcases List.mem_cons.mp hv with rfl | hv'
    · exact le_refl v
    · simp at hv'
  | cons y ys ih =>
    intro v hv hfv
    simp only [List.foldl_cons] at hfv ⊢
    have hxy : x ≤ y := List.rel_of_sorted_cons hs y (List.mem_cons_self y ys)
    rcases le_or_lt (f y) (f x) with hle | hlt
    · rw [show argmaxStep f x y = x from by simp [argmaxStep, not_lt.mpr hle]] at hfv ⊢
      have hs' : (x :: ys).Sorted (· ≤ ·) := by
        rw [List.sorted_cons] at hs ⊢
        exact ⟨fun b hb => hs.1 b (List.mem_cons_of_mem _ hb),
          (List.sorted_cons.mp hs.2).2⟩
      obtain ⟨h1, h2, h3⟩ := argmax_foldl_spec f ys x
      rcases List.mem_cons.mp hv with rfl | hv'
      · rcases h1 with h | ⟨_, hf⟩
        · rw [h]
        · exact absurd hfv.symm (ne_of_gt hf)
      · rcases List.mem_cons.mp hv' with rfl | hv''
        · rcases h1 with h | ⟨_, hf⟩
          · rw [h]; exact hxy
          · exact absurd hfv.symm (ne_of_gt (lt_of_le_of_lt hle hf))
        · exact ih x hs' v (List.mem_cons_of_mem _ hv'') hfv
    · rw [show argmaxStep f x y = y from by simp [argmaxStep, hlt]] at hfv ⊢
      have hs' : (y :: ys).Sorted (· ≤ ·) := hs.of_cons
      obtain ⟨_, h2, _⟩ := argmax_foldl_spec f ys y
      rcases List.mem_cons.mp hv with rfl | hv'
      · exact absurd hfv.symm (ne_of_gt (lt_of_lt_of_le hlt h2))
      · exact ih y hs' v hv' hfv

/-- C10: when the (non-sentinel) neighborhood is nonempty, the majority filter
returns a value occurring in it whose frequency is maximal, and among values
tied for the maximal frequency it returns the numerically smallest one — the
candidates are examined in ascending sorted order (`np.unique`) and the first
maximum wins (`np.argmax`). -/
theorem majority_filter_first_max_tiebreak (arr : List ℤ)
    (h : arr.filter (fun v => v ≠ -9999) ≠ []) :
    majority_filter arr ∈ arr.filter (fun v => v ≠ -9999) ∧
    (∀ v ∈ arr.filter (fun v => v ≠ -9999),
      (arr.filter (fun v => v ≠ -9999)).count v ≤
        (arr.filter (fun v => v ≠ -9999)).count (majority_filter arr)) ∧
    ∀ v ∈ arr.filter (fun v => v ≠ -9999),
      (arr.filter (fun v => v ≠ -9999)).count v =
        (arr.filter (fun v => v ≠ -9999)).count (majority_filter arr) →
      majority_filter arr ≤ v := by
  have hlen : 0 < (arr.filter (fun v => v ≠ -9999)).length :=
    List.length_pos.mpr h
  have hmf : majority_filter arr =
      firstMaxVal (fun u => (arr.filter (fun v => v ≠ -9999)).count u)
        ((arr.filter (fun v => v ≠ -9999)).toFinset.sort (· ≤ ·)) := by
    simp only [majority_filter, if_pos hlen]
  cases hu : (arr.filter (fun v => v ≠ -9999)).toFinset.sort (· ≤ ·) with
  | nil =>
    exfalso
    obtain ⟨a, ha⟩ := List.exists_mem_of_ne_nil _ h
    have hmem : a ∈ (arr.filter (fun v => v ≠ -9999)).toFinset := List.mem_toFinset.mpr ha
    rw [← Finset.mem_sort (α := ℤ) (· ≤ ·), hu] at hmem
    exact (List.not_mem_nil a) hmem
  | cons x xs =>
    rw [hu] at hmf
    simp only [firstMaxVal] at hmf
    have hmemlist : ∀ v, v ∈ arr.filter (fun w => w ≠ -9999) → v ∈ x :: xs := by
      intro v hv
      rw [← hu, Finset.mem_sort]
      exact List.mem_toFinset.mpr hv
    have hlistmem : ∀ v, v ∈ x :: xs → v ∈ arr.filter (fun w => w ≠ -9999) := by
      intro v hv
      rw [← hu, Finset.mem_sort] at hv
      exact List.mem_toFinset.mp hv
    have hsorted : (x :: xs).Sorted (· ≤ ·) := by
      rw [← hu]
      exact Finset.sort_sorted _ _
    obtain ⟨h1, h2, h3⟩ :=
      argmax_foldl_spec (fun u => (arr.filter (fun v => v ≠ -9999)).count u) xs x
    refine ⟨?_, ?_, ?_⟩
    · rw [hmf]
      apply hlistmem
      rcases h1 with hx | ⟨hm, _⟩
      · rw [hx]; exact List.mem_cons_self x xs
      · exact List.mem_cons_of_mem _ hm
    · intro v hv
      rw [hmf]
      rcases List.mem_cons.mp (hmemlist v hv) with rfl | hv'
      · exact h2
      · exact h3 v hv'
    · intro v hv hveq
      rw [hmf] at hveq ⊢
      exact argmax_foldl_first _ xs x hsorted v (hmemlist v hv) hveq

/-- Witness for C10 on the neighborhood `[1, 2, -9999]`: values 1 and 2 are
tied with one occurrence each and the filter picks the smaller one. -/
theorem majority_filter_first_max_tiebreak_witness :
    ([1, 2, -9999] : List ℤ).filter (fun v => v ≠ -9999) ≠ [] ∧
    (majority_filter [1, 2, -9999] ∈
        ([1, 2, -9999] : List ℤ).filter (fun v => v ≠ -9999) ∧
      (∀ v ∈ ([1, 2, -9999] : List ℤ).filter (fun v => v ≠ -9999),
        (([1, 2, -9999] : List ℤ).filter (fun v => v ≠ -9999)).count v ≤
          (([1, 2, -9999] : List ℤ).filter (fun v => v ≠ -9999)).count
            (majority_filter [1, 2, -9999])) ∧
      ∀ v ∈ ([1, 2, -9999] : List ℤ).filter (fun v => v ≠ -9999),
        (([1, 2, -9999] : List ℤ).filter (fun v => v ≠ -9999)).count v =
          (([1, 2, -9999] : List ℤ).filter (fun v => v ≠ -9999)).count
            (majority_filter [1, 2, -9999]) →
        majority_filter [1, 2, -9999] ≤ v) :=
  ⟨by decide, majority_filter_first_max_tiebreak [1, 2, -9999] (by decide)⟩

/-!
Categorical remapping. `apply_class_mapping` embeds
`FuelModelReconciliation.apply_class_mapping`
(src/class_reconciliation.py lines 162-214); `apply_mapping_with_confidence`
embeds `SimpleConfidenceMapper.apply_mapping_with_confidence`
(src/class_reconciliation_confidence_based.py lines 26-62). Pixel buffers are
flat lists (row-major), confidences are rationals.
-/

/-- One masked assignment `output[data == source] = value`. -/
def maskedAssign (data out : List ℤ) (source value : ℤ) : List ℤ :=
  List.zipWith (fun d o => if d = source then value else o) data out

/-- Embedding of `apply_class_mapping(input, output)`
(src/class_reconciliation.py lines 162-214): the output starts as all
`-9999`; for each `(esri_class, fbfm40_class)` rule the matching pixels are
assigned the target (or `-9999` when `esri_class == 10` and
`clouds_as_nodata` is set); finally pixels whose value is not a key of the
table (`~np.isin(data, keys)`) are set to `-9999`. -/
def apply_class_mapping (classMapping : List (ℤ × ℤ)) (cloudsAsNodata : Bool)
    (data : List ℤ) : List ℤ :=
  let output0 := data.map fun _ => (-9999 : ℤ)
  let mapped := classMapping.foldl
    (fun out rule =>
      maskedAssign data out rule.1
        (if rule.1 = 10 ∧ cloudsAsNodata then -9999 else rule.2))
    output0
  List.zipWith
    (fun d o => if ∀ rule ∈ classMapping, rule.1 ≠ d then (-9999 : ℤ) else o)
    data mapped

/-- A source→target rule with confidence (`mapping_with_confidence` entry). -/
structure ConfRule where
  source : ℤ
  target : ℤ
  confidence : ℚ
  deriving Repr, DecidableEq

/-- The fixed table `SimpleConfidenceMapper.mapping_with_confidence`
(src/class_reconciliation_confidence_based.py lines 14-24). -/
def mapping_with_confidence : List ConfRule :=
  [⟨1, 98, 95/100⟩, ⟨2, 183, 55/100⟩, ⟨4, 121, 60/100⟩, ⟨5, 102, 75/100⟩,
   ⟨7, 91, 90/100⟩, ⟨8, 99, 85/100⟩, ⟨9, 92, 95/100⟩, ⟨10, 183, 20/100⟩,
   ⟨11, 102, 70/100⟩]

/-- Embedding of `apply_mapping_with_confidence`
(src/class_reconciliation_confidence_based.py lines 26-62): fuel output
starts at `-9999`, confidence output at `0.0`; each rule assigns its target
and confidence to the matching pixels (an empty mask is a no-op, so the
`np.any(mask)` guard is immaterial); unmapped pixels keep the initial
sentinel values. -/
def apply_mapping_with_confidence (table : List ConfRule) (data : List ℤ) :
    List ℤ × List ℚ :=
  let fuel0 := data.map fun _ => (-9999 : ℤ)
  let conf0 := data.map fun _ => (0 : ℚ)
  let fuel := table.foldl
    (fun out r =>
      List.zipWith (fun d o => if d = r.source then r.target else o) data out)
    fuel0
  let conf := table.foldl
    (fun out r =>
      List.zipWith (fun d o => if d = r.source then r.confidence else o) data out)
    conf0
  (fuel, conf)

lemma zipWith_replicate_replicate {α β γ : Type} (f : α → β → γ) (n : ℕ)
    (a : α) (b : β) :
    List.zipWith f (List.replicate n a) (List.replicate n b) =
      List.replicate n (f a b) := by
  induction n with
  | zero => rfl
  | succ m ih => simp [List.replicate_succ, ih]

/-- Folding per-rule masked assignments over a constant buffer is the
replication of the corresponding scalar fold. -/
lemma foldl_zipWith_replicate {R β : Type} (rules : List R) (f : R → ℤ → β → β)
    (c : ℤ) (n : ℕ) (o : β) :
    rules.foldl
        (fun out r => List.zipWith (fun d x => f r d x) (List.replicate n c) out)
        (List.replicate n o) =
      List.replicate n (rules.foldl (fun x r => f r c x) o) := by
  induction rules generalizing o with
  | nil => rfl
  | cons r rest ih =>
    simp only [List.foldl_cons]
    rw [zipWith_replicate_replicate, ih]

lemma scalar_fold_no_match {β : Type} (rules : List ConfRule) (c : ℤ)
    (g : ConfRule → β) (o : β) (h : ∀ q ∈ rules, q.source ≠ c) :
    rules.foldl (fun x q => if c = q.source then g q else x) o = o := by
  induction rules generalizing o with
  | nil => rfl
  | cons q rest ih =>
    simp only [List.foldl_cons]
    rw [if_neg fun hc => h q (List.mem_cons_self q rest) hc.symm]
    exact ih _ fun p hp => h p (List.mem_cons_of_mem _ hp)

lemma scalar_fold_lookup {β : Type} (rules : List ConfRule) (r : ConfRule)
    (g : ConfRule → β) (o : β)
    (hnd : (rules.map ConfRule.source).Nodup) (hr : r ∈ rules) :
    rules.foldl (fun x q => if r.source = q.source then g q else x) o = g r := by
  induction rules generalizing o with
  | nil => exact absurd hr (List.not_mem_nil r)
  | cons q rest ih =>
    simp only [List.map_cons, List.nodup_cons] at hnd
    simp only [List.foldl_cons]
    by_cases hc : r.source = q.source
    · have hrq : r = q := by
        rcases List.mem_cons.mp hr with h | h
        · exact h
        · exact absurd (hc ▸ List.mem_map_of_mem ConfRule.source h) hnd.1
      rw [if_pos hc, hrq]
      refine scalar_fold_no_match rest q.source g (g q) fun p hp hps => ?_
      exact hnd.1 (hps ▸ List.mem_map_of_mem ConfRule.source hp)
    · rw [if_neg hc]
      rcases List.mem_cons.mp hr with h | h
      · exact absurd (congrArg ConfRule.source h) hc
      · exact ih _ hnd.2 h

/-- C2: for every rule of the configured mapping table, remapping a raster in
which every pixel holds the rule's source code yields a fuel raster constant
at the rule's target code and a confidence raster constant at exactly the
rule's configured confidence value. -/
theorem apply_mapping_constant_raster (r : ConfRule)
    (hr : r ∈ mapping_with_confidence) (n : ℕ) :
    (apply_mapping_with_confidence mapping_with_confidence
        (List.replicate n r.source)).1 = List.replicate n r.target ∧
    (apply_mapping_with_confidence mapping_with_confidence
        (List.replicate n r.source)).2 = List.replicate n r.confidence := by
  have hnd : (mapping_with_confidence.map ConfRule.source).Nodup := by decide
  have hfuel := foldl_zipWith_replicate mapping_with_confidence
    (fun q d x => if d = q.source then q.target else x) r.source n (-9999 : ℤ)
  have hconf := foldl_zipWith_replicate mapping_with_confidence
    (fun q d x => if d = q.source then q.confidence else x) r.source n (0 : ℚ)
  have hsf := scalar_fold_lookup mapping_with_confidence r ConfRule.target
    (-9999 : ℤ) hnd hr
  have hsc := scalar_fold_lookup mapping_with_confidence r ConfRule.confidence
    (0 : ℚ) hnd hr
  constructor
  · simp only [apply_mapping_with_confidence, List.map_replicate]
    rw [hfuel, hsf]
  · simp only [apply_mapping_with_confidence, List.map_replicate]
    rw [hconf, hsc]

/-- Witness for C2: a 3-pixel raster of source code 1 maps to target 98 with
confidence 0.95 everywhere. -/
theorem apply_mapping_constant_raster_witness :
    (⟨1, 98, 95/100⟩ : ConfRule) ∈ mapping_with_confidence ∧
    ((apply_mapping_with_confidence mapping_with_confidence
        (List.replicate 3 (1 : ℤ))).1 = List.replicate 3 (98 : ℤ) ∧
     (apply_mapping_with_confidence mapping_with_confidence
        (List.replicate 3 (1 : ℤ))).2 = List.replicate 3 (95/100 : ℚ)) :=
  ⟨List.mem_cons_self _ _,
    apply_mapping_constant_raster ⟨1, 98, 95/100⟩ (List.mem_cons_self _ _) 3⟩

/-- Rule-fold over a cons-shaped buffer decomposes into the scalar fold on
the head pixel and the rule-fold on the tail. -/
lemma foldl_maskedAssign_cons (rules : List (ℤ × ℤ)) (v : ℤ × ℤ → ℤ)
    (d : ℤ) (ds : List ℤ) (o : ℤ) (os : List ℤ) :
    rules.foldl (fun out rule => maskedAssign (d :: ds) out rule.1 (v rule))
        (o :: os) =
      (rules.foldl (fun x rule => if d = rule.1 then v rule else x) o) ::
        rules.foldl (fun out rule => maskedAssign ds out rule.1 (v rule)) os := by
  induction rules generalizing o os with
  | nil => rfl
  | cons r rest ih =>
    simp only [List.foldl_cons, maskedAssign, List.zipWith_cons_cons]
    exact ih _ _

/-- Scalar fold of an identity table: a pixel in the code list receives its
own value, any other pixel keeps the initial value. -/
lemma scalar_fold_identity (codes : List ℤ) (v : ℤ × ℤ → ℤ)
    (hv : ∀ c ∈ codes, v (c, c) = c) (d o : ℤ) :
    (codes.map fun c => (c, c)).foldl
        (fun x rule => if d = rule.1 then v rule else x) o =
      if d ∈ codes then d else o := by
  induction codes generalizing o with
  | nil => simp
  | cons c cs ih =>
    have hv' : ∀ b ∈ cs, v (b, b) = b := fun b hb => hv b (List.mem_cons_of_mem _ hb)
    simp only [List.map_cons, List.foldl_cons]
    by_cases hdc : d = c
    · subst hdc
      rw [if_pos rfl, hv d (List.mem_cons_self d cs), ih hv' d]
      simp [List.mem_cons]
    · rw [if_neg hdc, ih hv' o]
      simp [List.mem_cons, hdc]

/-- C6: remapping a buffer whose every pixel is either one of the canonical
codes or the no-data sentinel `-9999`, with the identity table
(target == source for every canonical code) and the default
`clouds_as_nodata = False`, returns the pixel buffer unchanged. -/
theorem apply_identity_mapping_is_identity (codes : List ℤ) (data : List ℤ)
    (h : ∀ p ∈ data, p ∈ codes ∨ p = -9999) :
    apply_class_mapping (codes.map fun c => (c, c)) false data = data := by
  induction data with
  | nil => rfl
  | cons d ds ih =>
    have hd := h d (List.mem_cons_self d ds)
    have hds : ∀ p ∈ ds, p ∈ codes ∨ p = -9999 :=
      fun p hp => h p (List.mem_cons_of_mem _ hp)
    have htail := ih hds
    simp only [apply_class_mapping, List.map_cons] at htail ⊢
    rw [foldl_maskedAssign_cons, List.zipWith_cons_cons, htail]
    have hscalar := scalar_fold_identity codes
      (fun rule => if rule.1 = 10 ∧ false then -9999 else rule.2)
      (by intro c _; simp) d (-9999)
    rw [hscalar]
    by_cases hdm : d ∈ codes
    · rw [if_neg, if_pos hdm]
      intro hall
      exact hall (d, d) (List.mem_map_of_mem _ hdm) rfl
    · rcases hd with hd' | hd'
      · exact absurd hd' hdm
      · rw [if_pos, hd']
        intro rule hrule
        obtain ⟨c, hc, rfl⟩ := List.mem_map.mp hrule
        intro hcd
        exact hdm (hcd ▸ hc)

/-- Witness for C6: a buffer of canonical codes and sentinels is unchanged by
the identity table over the script's canonical FBFM40 codes. -/
theorem apply_identity_mapping_is_identity_witness :
    (∀ p ∈ ([98, -9999, 183, 91] : List ℤ),
      p ∈ ([91, 92, 98, 99, 102, 121, 183] : List ℤ) ∨ p = -9999) ∧
    apply_class_mapping
        (([91, 92, 98, 99, 102, 121, 183] : List ℤ).map fun c => (c, c)) false
        [98, -9999, 183, 91] = [98, -9999, 183, 91] :=
  ⟨by decide,
    apply_identity_mapping_is_identity [91, 92, 98, 99, 102, 121, 183]
      [98, -9999, 183, 91] (by decide)⟩

/-!
Classification-system detection
(`ClassReconciler.detect_classification_system`,
src/geospatial-service/app/services/class_mapper.py lines 120-158) and the
`ClassificationSystem` tags (src/geospatial-service/app/models/dataset.py
lines 6-10).
-/

/-- The `ClassificationSystem` enum of the service. -/
inductive ClassificationSystem where
  | FBFM40
  | SENTINEL_FUEL_2024
  | LANDFIRE_US
  | UNKNOWN
  deriving Repr, DecidableEq

/-- `set(range(1, 41)) | {91, 92, 93, 98, 99}`: the canonical FBFM40 codes. -/
def fbfm40_classes : Finset ℤ := Finset.Icc 1 40 ∪ {91, 92, 93, 98, 99}

/-- LANDFIRE signature codes (class_mapper.py line 136). -/
def landfire_patterns : Finset ℤ :=
  {101, 102, 103, 108, 109, 110, 201, 202, 301, 902, 998}

/-- Sentinel signature codes (class_mapper.py line 141). -/
def sentinel_patterns : Finset ℤ :=
  {1, 2, 3, 4, 5, 10, 11, 20, 21, 22, 30, 31, 100, 101, 102, 103}

/-- Embedding of `detect_classification_system(detected_classes)`
(class_mapper.py lines 120-158), heuristics in source order:
empty input → UNKNOWN; subset of FBFM40 codes with a member in 1..15 →
FBFM40; a value in (100, 1000) together with a LANDFIRE signature member →
LANDFIRE_US; at least 3 distinct Sentinel signature members →
SENTINEL_FUEL_2024; range-based fallbacks; otherwise UNKNOWN. -/
def detect_classification_system (detected : List ℤ) : ClassificationSystem :=
  if detected = [] then .UNKNOWN
  else
    let classSet := detected.toFinset
    if classSet ⊆ fbfm40_classes ∧ ∃ c ∈ classSet, 1 ≤ c ∧ c ≤ 15 then
      .FBFM40
    else if (∃ cls ∈ detected, 100 < cls ∧ cls < 1000) ∧
        (∃ cls ∈ detected, cls ∈ landfire_patterns) then
      .LANDFIRE_US
    else if 3 ≤ (classSet ∩ sentinel_patterns).card then
      .SENTINEL_FUEL_2024
    else
      let maxValue := detected.max?.getD 0
      let minValue := detected.min?.getD 0
      if maxValue ≤ 150 ∧ 1 ≤ minValue ∧
          ∃ cls ∈ detected, cls ∈ ({10, 20, 30, 100} : Finset ℤ) then
        .SENTINEL_FUEL_2024
      else if 300 < maxValue then .LANDFIRE_US
      else .UNKNOWN

set_option maxRecDepth 8000 in
/-- C3 counterexample: on exactly the observed codes `{1,2,4,5,7,8,9,10,11}`
(the default source scheme's full set) the detector does NOT return a source
scheme's tag: the first heuristic fires, because the nine codes are a subset
of the canonical FBFM40 code set with members in the primary 1..15 range, and
the canonical tag FBFM40 is returned instead of SENTINEL_FUEL_2024 (the only
source scheme containing any of these codes). -/
theorem detect_default_source_codes_counterexample :
    detect_classification_system [1, 2, 4, 5, 7, 8, 9, 10, 11] =
        ClassificationSystem.FBFM40 ∧
    detect_classification_system [1, 2, 4, 5, 7, 8, 9, 10, 11] ≠
        ClassificationSystem.SENTINEL_FUEL_2024 := by
  constructor <;> decide

set_option maxRecDepth 8000 in
/-- C3 amended: on the observed codes `{1,2,4,5,7,8,9,10,11}` the detector
returns the canonical FBFM40 tag (heuristic 1: subset of the canonical code
set with a member in the primary 1..15 range) and in particular does not
return UNKNOWN. -/
theorem detect_default_source_codes_returns_fbfm40 :
    detect_classification_system [1, 2, 4, 5, 7, 8, 9, 10, 11] =
        ClassificationSystem.FBFM40 ∧
    detect_classification_system [1, 2, 4, 5, 7, 8, 9, 10, 11] ≠
        ClassificationSystem.UNKNOWN := by
  constructor <;> decide

/-!
Auto-mappability (`ClassReconciler.create_class_mapping`,
src/geospatial-service/app/services/class_mapper.py lines 160-234). A source
system's `mappings_to_fbfm40` dict is a list of `ConfRule`s with distinct
sources; the Python dicts `mappings`/`confidence_scores` are association
lists built by key-overwriting insertion.
-/

/-- `mappings_to_fbfm40` of `"SENTINEL_FUEL_2024"` (class_mapper.py
lines 40-61). -/
def sentinel_fuel_2024_rules : List ConfRule :=
  [⟨1, 1, 95/100⟩, ⟨2, 2, 87/100⟩, ⟨3, 3, 91/100⟩, ⟨4, 4, 82/100⟩,
   ⟨5, 5, 89/100⟩, ⟨10, 14, 91/100⟩, ⟨11, 15, 88/100⟩, ⟨20, 8, 89/100⟩,
   ⟨21, 9, 85/100⟩, ⟨22, 10, 87/100⟩, ⟨30, 11, 75/100⟩, ⟨31, 12, 78/100⟩,
   ⟨100, 91, 98/100⟩, ⟨101, 93, 96/100⟩, ⟨102, 98, 99/100⟩, ⟨103, 99, 94/100⟩]

/-- `mappings_to_fbfm40` of `"LANDFIRE_US"` (class_mapper.py lines 63-88). -/
def landfire_us_rules : List ConfRule :=
  [⟨101, 1, 93/100⟩, ⟨102, 2, 88/100⟩, ⟨103, 3, 91/100⟩, ⟨104, 4, 89/100⟩,
   ⟨105, 5, 87/100⟩, ⟨106, 6, 85/100⟩, ⟨107, 7, 83/100⟩, ⟨108, 8, 92/100⟩,
   ⟨109, 9, 89/100⟩, ⟨110, 10, 91/100⟩, ⟨201, 14, 85/100⟩, ⟨202, 15, 87/100⟩,
   ⟨301, 11, 78/100⟩, ⟨302, 12, 81/100⟩, ⟨303, 13, 84/100⟩, ⟨901, 91, 97/100⟩,
   ⟨902, 92, 99/100⟩, ⟨903, 93, 95/100⟩, ⟨998, 98, 99/100⟩, ⟨999, 99, 92/100⟩]

/-- The integer-keyed rule tables of `known_mappings`. `"CANADIAN_FBP"` has
only string keys (`"C1"`, …) which `cls_key = str(cls)` can never produce
from an integer class, so its integer-keyed table is empty. -/
def known_mappings : List (String × List ConfRule) :=
  [("SENTINEL_FUEL_2024", sentinel_fuel_2024_rules),
   ("LANDFIRE_US", landfire_us_rules),
   ("CANADIAN_FBP", [])]

/-- Python dict assignment `d[k] = v`: overwrite an existing key in place,
otherwise append. -/
def dictInsert {β : Type} (d : List (ℤ × β)) (k : ℤ) (v : β) : List (ℤ × β) :=
  if d.any fun p => p.1 = k then d.map fun p => if p.1 = k then (k, v) else p
  else d ++ [(k, v)]

/-- `cls_key in system_mappings` / `system_mappings[cls_key]`: first (unique)
rule for a source code. -/
def ruleLookup (rules : List ConfRule) (c : ℤ) : Option ConfRule :=
  rules.find? fun r => r.source = c

/-- The loop state of `create_class_mapping`: `mappings`,
`confidence_scores`, `unmapped`, `high_confidence_count`. -/
structure MapAcc where
  mappings : List (ℤ × ℤ)
  confidenceScores : List (ℤ × ℚ)
  unmapped : List ℤ
  highConfidenceCount : ℕ
  deriving Repr, DecidableEq

/-- One iteration of the `for cls in detected_classes` loop
(class_mapper.py lines 202-216). -/
def mapStep (rules : List ConfRule) (threshold : ℚ) (acc : MapAcc)
    (cls : ℤ) : MapAcc :=
  match ruleLookup rules cls with
  | some r =>
    { mappings := dictInsert acc.mappings cls r.target
      confidenceScores := dictInsert acc.confidenceScores cls r.confidence
      unmapped := acc.unmapped
      highConfidenceCount :=
        if threshold ≤ r.confidence then acc.highConfidenceCount + 1
        else acc.highConfidenceCount }
  | none => { acc with unmapped := acc.unmapped ++ [cls] }

/-- The `ClassMapping` record fields used by this development
(src/geospatial-service/app/models/dataset.py lines 41-51). -/
structure ClassMapping where
  sourceSystem : String
  mappingRequired : Bool
  directMapping : Bool
  autoMappable : Bool
  mappings : List (ℤ × ℤ)
  confidenceScores : List (ℤ × ℚ)
  unmappedClasses : List ℤ
  autoMappedCount : ℕ
  manualReviewCount : ℕ

/-- Embedding of `create_class_mapping(source_system, detected_classes,
confidence_threshold)` (class_mapper.py lines 160-234): the canonical system
short-circuits to an identity mapping flagged auto-mappable; an unregistered
system yields no mappings and is not auto-mappable; otherwise the loop runs
and `auto_mappable = (mapped_percentage >= 0.7 and
high_confidence_percentage >= 0.5)`, with both percentages 0 on an empty
class list. -/
def create_class_mapping (registry : List (String × List ConfRule))
    (sourceSystem : String) (detected : List ℤ) (threshold : ℚ) :
    ClassMapping :=
  if sourceSystem = "FBFM40" then
    { sourceSystem := "FBFM40", mappingRequired := false, directMapping := true
      autoMappable := true
      mappings := detected.foldl (fun d cls => dictInsert d cls cls) []
      confidenceScores := detected.foldl (fun d cls => dictInsert d cls 1) []
      unmappedClasses := [], autoMappedCount := detected.length
      manualReviewCount := 0 }
  else
    match registry.find? fun p => p.1 = sourceSystem with
    | none =>
      { sourceSystem := sourceSystem, mappingRequired := true
        directMapping := false, autoMappable := false, mappings := []
        confidenceScores := [], unmappedClasses := detected
        autoMappedCount := 0, manualReviewCount := detected.length }
    | some entry =>
      let acc := detected.foldl (mapStep entry.2 threshold) ⟨[], [], [], 0⟩
      let mappedPercentage : ℚ :=
        if detected ≠ [] then (acc.mappings.length : ℚ) / detected.length else 0
      let highConfidencePercentage : ℚ :=
        if detected ≠ [] then
          (acc.highConfidenceCount : ℚ) / detected.length
        else 0
      { sourceSystem := sourceSystem, mappingRequired := true
        directMapping := false
        autoMappable :=
          decide (7/10 ≤ mappedPercentage ∧ 1/2 ≤ highConfidencePercentage)
        mappings := acc.mappings, confidenceScores := acc.confidenceScores
        unmappedClasses := acc.unmapped, autoMappedCount := acc.mappings.length
        manualReviewCount := acc.unmapped.length }

/-- An observed code has a rule in the table. -/
def hasRule (rules : List ConfRule) (c : ℤ) : Bool :=
  (ruleLookup rules c).isSome

/-- An observed code has a rule whose confidence reaches the threshold. -/
def hasHighConfRule (rules : List ConfRule) (threshold : ℚ) (c : ℤ) : Bool :=
  match ruleLookup rules c with
  | some r => decide (threshold ≤ r.confidence)
  | none => false

lemma dictInsert_length_of_fresh {β : Type} (d : List (ℤ × β)) (k : ℤ) (v : β)
    (h : ∀ p ∈ d, p.1 ≠ k) : (dictInsert d k v).length = d.length + 1 := by
  have hany : (d.any fun p => p.1 = k) = false := by
    rw [List.any_eq_false]
    intro p hp
    simp [h p hp]
  simp [dictInsert, hany]

lemma dictInsert_mem {β : Type} (d : List (ℤ × β)) (k : ℤ) (v : β)
    (p : ℤ × β) (hp : p ∈ dictInsert d k v) : p.1 = k ∨ p ∈ d := by
  unfold dictInsert at hp
  split at hp
  · obtain ⟨q, hq, hqe⟩ := List.mem_map.mp hp
    by_cases hqk : q.1 = k
    · rw [if_pos hqk] at hqe
      exact Or.inl (hqe ▸ rfl)
    · rw [if_neg hqk] at hqe
      exact Or.inr (hqe ▸ hq)
  · rcases List.mem_append.mp hp with h | h
    · exact Or.inr h
    · simp at h
      exact Or.inl (h ▸ rfl)

lemma mapStep_fold_mappings_length (rules : List ConfRule) (threshold : ℚ)
    (detected : List ℤ) :
    ∀ (acc : MapAcc), detected.Nodup →
      (∀ c ∈ detected, ∀ p ∈ acc.mappings, p.1 ≠ c) →
      (detected.foldl (mapStep rules threshold) acc).mappings.length =
        acc.mappings.length + (detected.filter fun c => hasRule rules c).length := by
  induction detected with
  | nil => intro acc _ _; simp
  | cons c cs ih =>
    intro acc hnd hfresh
    have hndcs : cs.Nodup := (List.nodup_cons.mp hnd).2
    have hcnotin : c ∉ cs := (List.nodup_cons.mp hnd).1
    simp only [List.foldl_cons]
    cases hlook : ruleLookup rules c with
    | some r =>
      have hstep : mapStep rules threshold acc c =
          { mappings := dictInsert acc.mappings c r.target
            confidenceScores := dictInsert acc.confidenceScores c r.confidence
            unmapped := acc.unmapped
            highConfidenceCount :=
              if threshold ≤ r.confidence then acc.highConfidenceCount + 1
              else acc.highConfidenceCount } := by
        simp [mapStep, hlook]
      have hfresh' : ∀ b ∈ cs, ∀ p ∈ (mapStep rules threshold acc c).mappings,
          p.1 ≠ b := by
        intro b hb p hp
        rw [hstep] at hp
        rcases dictInsert_mem _ _ _ p hp with hk | hm
        · rw [hk]
          intro hcb
          exact hcnotin (hcb ▸ hb)
        · exact hfresh b (List.mem_cons_of_mem _ hb) p hm
      rw [ih (mapStep rules threshold acc c) hndcs hfresh']
      rw [hstep]
      have hfr : ∀ p ∈ acc.mappings, p.1 ≠ c :=
        hfresh c (List.mem_cons_self c cs)
      simp only [dictInsert_length_of_fresh acc.mappings c r.target hfr]
      have hhr : hasRule rules c = true := by simp [hasRule, hlook]
      simp [List.filter_cons, hhr]
      omega
    | none =>
      have hstep : (mapStep rules threshold acc c).mappings = acc.mappings := by
        simp [mapStep, hlook]
      have hfresh' : ∀ b ∈ cs, ∀ p ∈ (mapStep rules threshold acc c).mappings,
          p.1 ≠ b := by
        intro b hb p hp
        rw [hstep] at hp
        exact hfresh b (List.mem_cons_of_mem _ hb) p hp
      rw [ih (mapStep rules threshold acc c) hndcs hfresh', hstep]
      have hhr : hasRule rules c = false := by simp [hasRule, hlook]
      simp [List.filter_cons, hhr]

lemma mapStep_fold_highconf (rules : List ConfRule) (threshold : ℚ)
    (detected : List ℤ) :
    ∀ (acc : MapAcc),
      (detected.foldl (mapStep rules threshold) acc).highConfidenceCount =
        acc.highConfidenceCount +
          (detected.filter fun c => hasHighConfRule rules threshold c).length := by
  induction detected with
  | nil => intro acc; simp
  | cons c cs ih =>
    intro acc
    simp only [List.foldl_cons]
    rw [ih (mapStep rules threshold acc c)]
    cases hlook : ruleLookup rules c with
    | some r =>
      have hstep : (mapStep rules threshold acc c).highConfidenceCount =
          if threshold ≤ r.confidence then acc.highConfidenceCount + 1
          else acc.highConfidenceCount := by
        simp [mapStep, hlook]
      rw [hstep]
      by_cases hc : threshold ≤ r.confidence
      · have hh : hasHighConfRule rules threshold c = true := by
          simp [hasHighConfRule, hlook, hc]
        rw [if_pos hc]
        simp [List.filter_cons, hh]
        omega
      · have hh : hasHighConfRule rules threshold c = false := by
          simp [hasHighConfRule, hlook, hc]
        rw [if_neg hc]
        simp [List.filter_cons, hh]
    | none =>
      have hstep : (mapStep rules threshold acc c).highConfidenceCount =
          acc.highConfidenceCount := by
        simp [mapStep, hlook]
      rw [hstep]
      have hh : hasHighConfRule rules threshold c = false := by
        simp [hasHighConfRule, hlook]
      simp [List.filter_cons, hh]

/-- C7: for a registered non-canonical source system and a duplicate-free,
nonempty list of observed codes, the mapping is flagged auto-mappable if and
only if at least 70% of the observed codes have a rule in the table and at
least 50% of the observed codes have a rule whose confidence is at least the
caller's threshold. -/
theorem create_class_mapping_auto_mappable_iff
    (registry : List (String × List ConfRule)) (sourceSystem : String)
    (rules : List ConfRule) (detected : List ℤ) (threshold : ℚ)
    (hsys : sourceSystem ≠ "FBFM40")
    (hfind : (registry.find? fun p => p.1 = sourceSystem) =
      some (sourceSystem, rules))
    (hnd : detected.Nodup) (hne : detected ≠ []) :
    ((create_class_mapping registry sourceSystem detected threshold).autoMappable
        = true) ↔
      ((7/10 : ℚ) ≤
          ((detected.filter fun c => hasRule rules c).length : ℚ) /
            detected.length ∧
       (1/2 : ℚ) ≤
          ((detected.filter fun c => hasHighConfRule rules threshold c).length : ℚ) /
            detected.length) := by
  have hmap := mapStep_fold_mappings_length rules threshold detected
    ⟨[], [], [], 0⟩ hnd (by intro c _ p hp; exact absurd hp (List.not_mem_nil p))
  have hhigh := mapStep_fold_highconf rules threshold detected ⟨[], [], [], 0⟩
  simp only [create_class_mapping, if_neg hsys, hfind]
  simp only [hmap, hhigh, if_pos hne]
  rw [decide_eq_true_iff]
  simp

/-- Witness for C7: system `"SENTINEL_FUEL_2024"`, observed codes `[1, 2, 3]`,
threshold 0.8 — full coverage and all three confidences at least 0.8, so the
mapping is auto-mappable and both percentages reach their cut-offs. -/
theorem create_class_mapping_auto_mappable_iff_witness :
    (("SENTINEL_FUEL_2024" : String) ≠ "FBFM40" ∧
     (known_mappings.find? fun p => p.1 = "SENTINEL_FUEL_2024") =
       some ("SENTINEL_FUEL_2024", sentinel_fuel_2024_rules) ∧
     ([1, 2, 3] : List ℤ).Nodup ∧ ([1, 2, 3] : List ℤ) ≠ []) ∧
    (((create_class_mapping known_mappings "SENTINEL_FUEL_2024" [1, 2, 3]
        (8/10)).autoMappable = true) ↔
      ((7/10 : ℚ) ≤
          ((([1, 2, 3] : List ℤ).filter
              fun c => hasRule sentinel_fuel_2024_rules c).length : ℚ) / 3 ∧
       (1/2 : ℚ) ≤
          ((([1, 2, 3] : List ℤ).filter
              fun c => hasHighConfRule sentinel_fuel_2024_rules (8/10) c).length : ℚ) / 3)) :=
  ⟨⟨by decide, rfl, by decide, by decide⟩,
    create_class_mapping_auto_mappable_iff known_mappings "SENTINEL_FUEL_2024"
      sentinel_fuel_2024_rules [1, 2, 3] (8/10) (by decide) rfl (by decide)
      (by decide)⟩

/-!
Validation suite (`FuelModelReconciliation` of src/class_reconciliation_v1.py:
`validate_mapping_completeness` lines 219-228, `validate_target_classes`
lines 230-239, `validate_semantic_logic` lines 241-261,
`validate_confidence_distribution` lines 263-282, `run_validation_suite`
lines 284-317). A mapping configuration is the table plus the expected source
codes and the valid target codes; each check returns its pass flag and the
codes its diagnostic message names.
-/

/-- Mapping configuration: `mapping_with_metadata` (whose keys are
`class_mapping`'s keys and whose `target`s are `class_mapping`'s values),
`expected_source_classes` and `valid_fbfm40_classes`. -/
structure MappingConfig where
  mappingWithMetadata : List ConfRule
  expectedSourceClasses : List ℤ
  validFbfm40Classes : List ℤ

/-- `validate_mapping_completeness` (lines 219-228): the diagnostic set
`missing_classes = set(expected) - set(keys)` holds exactly the expected
codes without a rule; the check passes iff it is empty. -/
def validate_mapping_completeness (cfg : MappingConfig) : Bool × List ℤ :=
  let missing := cfg.expectedSourceClasses.filter fun c =>
    cfg.mappingWithMetadata.all fun r => r.source ≠ c
  (missing.isEmpty, missing)

/-- `validate_target_classes` (lines 230-239): invalid targets are mapped
values outside `valid_fbfm40_classes`; pass iff none. -/
def validate_target_classes (cfg : MappingConfig) : Bool × List ℤ :=
  let invalid := (cfg.mappingWithMetadata.map fun r => r.target).filter
    fun t => cfg.validFbfm40Classes.all fun v => v ≠ t
  (invalid.isEmpty, invalid)

/-- The hard-coded semantic rules `{1: [98], 7: [91], 9: [92]}`
(lines 243-247). -/
def semantic_validation_rules : List (ℤ × List ℤ) :=
  [(1, [98]), (7, [91]), (9, [92])]

/-- `validate_semantic_logic` (lines 241-261): a warning for each constrained
source code mapped outside its allowed target list; pass iff no warnings. -/
def validate_semantic_logic (cfg : MappingConfig) : Bool × List ℤ :=
  let warned := semantic_validation_rules.filter fun rule =>
    match cfg.mappingWithMetadata.find? fun r => r.source = rule.1 with
    | some r => decide (r.target ∉ rule.2)
    | none => false
  (warned.isEmpty, warned.map Prod.fst)

/-- Confidence distribution report (lines 273-279). -/
structure ConfidenceAnalysis where
  highConfidenceCount : ℕ
  mediumConfidenceCount : ℕ
  lowConfidenceCount : ℕ
  averageConfidence : ℚ
  totalMappings : ℕ
  deriving Repr, DecidableEq

/-- `validate_confidence_distribution` (lines 263-282): counts the rules in
the ≥0.8 / [0.6,0.8) / <0.6 confidence bands and the mean confidence; it
always returns `True` — it informs the audit report and never fails. -/
def validate_confidence_distribution (cfg : MappingConfig) :
    Bool × ConfidenceAnalysis :=
  let confidences := cfg.mappingWithMetadata.map fun r => r.confidence
  (true,
    { highConfidenceCount := (confidences.filter fun c => 8/10 ≤ c).length
      mediumConfidenceCount :=
        (confidences.filter fun c => 6/10 ≤ c ∧ c < 8/10).length
      lowConfidenceCount := (confidences.filter fun c => c < 6/10).length
      averageConfidence := confidences.sum / confidences.length
      totalMappings := confidences.length })

/-- The dictionary `validation_results` built by `run_validation_suite`. -/
structure ValidationSuiteResult where
  completeness : Bool × List ℤ
  targetValidity : Bool × List ℤ
  semanticLogic : Bool × List ℤ
  confidenceAnalysis : Bool × ConfidenceAnalysis
  allPassed : Bool

/-- Embedding of `run_validation_suite` (lines 284-317): the four checks run
unconditionally in sequence, each recording its own result;
`all_passed` is the conjunction of the first three pass flags only — the
confidence analysis (test 4) is recorded but deliberately not ANDed in
(lines 306-308). -/
def run_validation_suite (cfg : MappingConfig) : ValidationSuiteResult :=
  let c1 := validate_mapping_completeness cfg
  let c2 := validate_target_classes cfg
  let c3 := validate_semantic_logic cfg
  let c4 := validate_confidence_distribution cfg
  { completeness := c1, targetValidity := c2, semanticLogic := c3
    confidenceAnalysis := c4, allPassed := c1.1 && c2.1 && c3.1 }

/-- C8: on any configuration that expects code 11 but whose table has no rule
for it, the suite's completeness check fails with 11 named in its diagnostic,
while the target-validity, semantic, and confidence-distribution checks are
still evaluated and each records exactly the result of its standalone run —
no check's failure prevents any other check from being evaluated. -/
theorem validation_suite_missing_code_independent (cfg : MappingConfig)
    (h11 : (11 : ℤ) ∈ cfg.expectedSourceClasses)
    (hno : ∀ r ∈ cfg.mappingWithMetadata, r.source ≠ 11) :
    (run_validation_suite cfg).completeness.1 = false ∧
    (11 : ℤ) ∈ (run_validation_suite cfg).completeness.2 ∧
    (run_validation_suite cfg).targetValidity = validate_target_classes cfg ∧
    (run_validation_suite cfg).semanticLogic = validate_semantic_logic cfg ∧
    (run_validation_suite cfg).confidenceAnalysis =
      validate_confidence_distribution cfg := by
  have hmem : (11 : ℤ) ∈ cfg.expectedSourceClasses.filter fun c =>
      cfg.mappingWithMetadata.all fun r => r.source ≠ c := by
    rw [List.mem_filter]
    refine ⟨h11, ?_⟩
    rw [List.all_eq_true]
    intro r hr
    simp [hno r hr]
  refine ⟨?_, hmem, rfl, rfl, rfl⟩
  show (cfg.expectedSourceClasses.filter fun c =>
      cfg.mappingWithMetadata.all fun r => r.source ≠ c).isEmpty = false
  rcases hempty : (cfg.expectedSourceClasses.filter fun c =>
      cfg.mappingWithMetadata.all fun r => r.source ≠ c) with _ | ⟨a, l⟩
  · rw [hempty] at hmem
    exact absurd hmem (List.not_mem_nil _)
  · rfl

/-- The default v1 mapping table
(src/class_reconciliation_v1.py lines 69-115). -/
def mapping_with_metadata_v1 : List ConfRule :=
  [⟨1, 98, 95/100⟩, ⟨2, 183, 55/100⟩, ⟨4, 121, 60/100⟩, ⟨5, 102, 75/100⟩,
   ⟨7, 91, 90/100⟩, ⟨8, 99, 85/100⟩, ⟨9, 92, 95/100⟩, ⟨10, 183, 20/100⟩,
   ⟨11, 102, 70/100⟩]

/-- The default `expected_source_classes` (v1 line 136). -/
def expected_source_classes_v1 : List ℤ := [1, 2, 4, 5, 7, 8, 9, 10, 11]

/-- The default `valid_fbfm40_classes` (v1 lines 139-140). -/
def valid_fbfm40_classes_v1 : List ℤ :=
  [91, 92, 98, 99, 102, 121, 183, 186, 161, 162, 163, 164, 165,
   181, 182, 184, 185, 187, 188, 189, 201, 202, 203, 204]

/-- Witness for C8: the default configuration with the rule for code 11
removed from the table. -/
theorem validation_suite_missing_code_independent_witness :
    ((11 : ℤ) ∈ expected_source_classes_v1 ∧
     ∀ r ∈ mapping_with_metadata_v1.filter fun r => r.source ≠ 11,
       r.source ≠ 11) ∧
    ((run_validation_suite
        ⟨mapping_with_metadata_v1.filter fun r => r.source ≠ 11,
         expected_source_classes_v1, valid_fbfm40_classes_v1⟩).completeness.1
        = false ∧
     (11 : ℤ) ∈ (run_validation_suite
        ⟨mapping_with_metadata_v1.filter fun r => r.source ≠ 11,
         expected_source_classes_v1, valid_fbfm40_classes_v1⟩).completeness.2 ∧
     (run_validation_suite
        ⟨mapping_with_metadata_v1.filter fun r => r.source ≠ 11,
         expected_source_classes_v1, valid_fbfm40_classes_v1⟩).targetValidity =
       validate_target_classes
        ⟨mapping_with_metadata_v1.filter fun r => r.source ≠ 11,
         expected_source_classes_v1, valid_fbfm40_classes_v1⟩ ∧
     (run_validation_suite
        ⟨mapping_with_metadata_v1.filter fun r => r.source ≠ 11,
         expected_source_classes_v1, valid_fbfm40_classes_v1⟩).semanticLogic =
       validate_semantic_logic
        ⟨mapping_with_metadata_v1.filter fun r => r.source ≠ 11,
         expected_source_classes_v1, valid_fbfm40_classes_v1⟩ ∧
     (run_validation_suite
        ⟨mapping_with_metadata_v1.filter fun r => r.source ≠ 11,
         expected_source_classes_v1, valid_fbfm40_classes_v1⟩).confidenceAnalysis =
       validate_confidence_distribution
        ⟨mapping_with_metadata_v1.filter fun r => r.source ≠ 11,
         expected_source_classes_v1, valid_fbfm40_classes_v1⟩) :=
  ⟨⟨by decide, by decide⟩,
    validation_suite_missing_code_independent
      ⟨mapping_with_metadata_v1.filter fun r => r.source ≠ 11,
       expected_source_classes_v1, valid_fbfm40_classes_v1⟩
      (by decide) (by decide)⟩

end ClassReconciliation
